import Mathlib

/-!
Verification development for the multithreaded Oja-rule training network
(`src/model/network.rs`).  The orchestration core (`MtNetwork` with its two
training strategies) is embedded shallowly: the nondeterministic arrival
order of result messages is an explicit parameter, a panic or a receive that
can never be served is `none`, and the external collaborators that are not
part of the visible source (`MnistData`, `oja_learning_rule`, `ThreadPool`,
`PATCH_SIZE`) are modelled from the specification at their interface
boundary.
-/

set_option maxRecDepth 4000

/-- Modelled from the spec: `PATCH_SIZE` lives in `src/utils/constants.rs`,
which is not part of the visible source.  The spec only requires a fixed
compile-time patch width shared by samples and weights; the concrete value
is immaterial to every claim, so we fix one. -/
def PATCH_SIZE : Nat := 4

/-- Modelled from the spec: the Sample Source (`src/data/mnist.rs` is not
part of the visible source).  Its interface yields one ordered patch list
per partition index (`get_section_vector`) and a sized read-only prefix of
the dataset (`get_sized_patch`).  `P` is the patch type. -/
structure MnistData (P : Type) where
  getSectionVector : Nat → List P
  getSizedPatch : Nat → List P

/-- The orchestrator state, from `struct MtNetwork`.  The `thread_pool`
field is represented by the `threads` count alone (the pool itself is an
external collaborator whose only observable role here is running submitted
units); `W` is the weight-vector type and `P` the patch type. -/
structure MtNetwork (P W : Type) where
  section_size : Nat
  threads : Nat
  neurons : Nat
  lr : Rat
  mnist_data : MnistData P
  weights : List W

/-- Observable construction steps of `MtNetwork::new`, in program order:
the worker pool is constructed (spawning its threads) on the line before
the divisibility assertion. -/
inductive NewEvent where
  | poolSpawned (threads : Nat)
  | assertPassed
  | mnistReady
  | weightsReady
deriving DecidableEq

/-- Embedding of `MtNetwork::new`.  Mirrors the source order: first
`ThreadPool::new(threads).unwrap()` (fails when `threads = 0`, per the
pool's interface contract), then `assert_eq!(neurons % section_size, 0)`,
then `MnistData::new(section_size)` and the random initial population.
`mkData` stands for `MnistData::new` and `rngW` for the per-neuron
`rng.gen()` draws; the trace records which steps executed, `none` is a
panic. -/
def MtNetwork.new {P W : Type} (section_size threads neurons : Nat) (lr : Rat)
    (mkData : Nat → MnistData P) (rngW : Nat → W) :
    List NewEvent × Option (MtNetwork P W) :=
  if threads = 0 then
    ([], none)
  else if neurons % section_size = 0 then
    ([NewEvent.poolSpawned threads, NewEvent.assertPassed, NewEvent.mnistReady,
      NewEvent.weightsReady],
     some { section_size := section_size, threads := threads, neurons := neurons,
            lr := lr, mnist_data := mkData section_size,
            weights := (List.range neurons).map rngW })
  else
    ([NewEvent.poolSpawned threads], none)

/-- Modelled from the spec: `oja_learning_rule` lives in
`src/model/oja.rs`, which is not part of the visible source.  The spec's
glossary names it as Oja's rule, an in-place Hebbian update driven by one
sample patch and a learning rate; we use the standard componentwise Oja
formula with activation `y = ⟨w, x⟩`. -/
def oja_learning_rule (x w : List Rat) (lr : Rat) : List Rat :=
  let y : Rat := (List.zipWith (fun a b => a * b) x w).sum
  List.zipWith (fun xi wi => wi + lr * y * (xi - y * wi)) x w

/-- The slice `&self.weights[i*section_size .. section_size + i*section_size]`
taken for section `i` in `train_iteration`; `none` is the out-of-range
panic of a Rust slice. -/
def sliceChecked {W : Type} (s : Nat) (weights : List W) (i : Nat) : Option (List W) :=
  if s + i * s ≤ weights.length then some ((weights.drop (i * s)).take s) else none

/-- Sequential option-valued map, mirroring a Rust `for` loop whose body
can panic: the first `none` aborts the whole loop. -/
def mapOpt {A B : Type} (f : A → Option B) : List A → Option (List B)
  | [] => some []
  | a :: l => (f a).bind (fun b => (mapOpt f l).bind (fun r => some (b :: r)))

/-- Body of a Strategy A work unit: `for i in 0..local_weights.len()`
apply the rule to `patches[i]` and `local_weights[i]`; indexing past the
end of `patches` is a panic. -/
def workUnitA {P W : Type} (rule : P → W → Rat → W) (patches : List P)
    (lr : Rat) (lw : List W) : Option (List W) :=
  mapOpt (fun i =>
    (patches[i]?).bind (fun p => (lw[i]?).map (fun w => rule p w lr)))
    (List.range lw.length)

/-- What the dispatch loop of `train_iteration` produces for index `i`:
the section slice is taken (panicking if out of range) and the work unit
runs on it with the section's patch vector and the learning rate. -/
def sectionOutput {P W : Type} (rule : P → W → Rat → W) (net : MtNetwork P W)
    (i : Nat) : Option (List W) :=
  (sliceChecked net.section_size net.weights i).bind
    (fun lw => workUnitA rule (net.mnist_data.getSectionVector i) net.lr lw)

/-- The dispatch loop `for i in 0..self.threads` of `train_iteration`:
one section output per loop index, in order. -/
def dispatchAll {P W : Type} (rule : P → W → Rat → W) (net : MtNetwork P W) :
    Option (List (List W)) :=
  mapOpt (sectionOutput rule net) (List.range net.threads)

/-- Embedding of `MtNetwork::train_iteration`.  `order` is the
nondeterministic arrival order of the sent messages (an index sequence
into the sent list).  The receiver performs `neurons / section_size`
blocking `recv` calls; when more messages are demanded than work units
were dispatched the call blocks forever, which — like a panic during
dispatch — is `none`.  The received sections are appended in arrival
order.  The `_epoch` argument is unused, as in the source. -/
def train_iteration {P W : Type} (rule : P → W → Rat → W) (net : MtNetwork P W)
    (_epoch : Nat) (order : List Nat) : Option (List W) :=
  (dispatchAll rule net).bind (fun sent =>
    if net.neurons / net.section_size ≤ sent.length then
      some (((order.map (fun j => sent.getD j [])).take
        (net.neurons / net.section_size)).flatten)
    else none)

/-- `train_iteration` together with the post-call orchestrator state.
The method body assigns to no field of `self`; the only `&mut self` use
that could conceivably mutate anything is the call into `MnistData`
(whose code is outside the visible source), so its post-call state is
abstracted as the arbitrary `d'`. -/
def train_iteration_post {P W : Type} (rule : P → W → Rat → W)
    (net : MtNetwork P W) (epoch : Nat) (order : List Nat) (d' : MnistData P) :
    MtNetwork P W × Option (List W) :=
  ({ net with mnist_data := d' }, train_iteration rule net epoch order)

/-- Failure of a channel operation (`SendError` / `RecvError` in `mpsc`):
the other endpoint has been dropped. -/
inductive ChannelError where
  | disconnected
deriving DecidableEq

/-- How a work unit ends: normally, or abnormally through a panic
(an `unwrap` on an `Err`). -/
inductive WorkerOutcome where
  | completed
  | aborted
deriving DecidableEq

/-- Strategy A, line 55: `thread_sender.lock().unwrap().send(local_weights).unwrap()`
— a failed send panics the submitting work unit. -/
def strategyA_send_outcome (r : Except ChannelError Unit) : WorkerOutcome :=
  match r with
  | Except.ok _ => WorkerOutcome.completed
  | Except.error _ => WorkerOutcome.aborted

/-- Strategy B, line 107: `w_response_copy.lock().unwrap().send(local_weights).unwrap()`
— the producer work units of Strategy B also panic on a failed send. -/
def strategyB_send_outcome (r : Except ChannelError Unit) : WorkerOutcome :=
  match r with
  | Except.ok _ => WorkerOutcome.completed
  | Except.error _ => WorkerOutcome.aborted

/-- Strategy B, lines 82–85: the aggregator's treatment of one `recv`
result — an `Ok` payload is appended to the buffer, an `Err` is silently
ignored. -/
def strategyB_recv_step {W : Type} (buf : List W) (r : Except ChannelError (List W)) :
    List W :=
  match r with
  | Except.ok ws => buf ++ ws
  | Except.error _ => buf

/-- The inner loop `for i in 0..((_epochs as i32) - 1)` of a Strategy B
work unit, applying the rule to `training_data[i]` starting at `idx`,
`remaining` more times; indexing past the end of the data is a panic. -/
def trainLoopB {P W : Type} (rule : P → W → Rat → W) (lr : Rat) (data : List P) :
    Nat → Nat → W → Option W
  | 0, _, w => some w
  | r + 1, idx, w =>
    (data[idx]?).bind (fun p => trainLoopB rule lr data r (idx + 1) (rule p w lr))

/-- The iteration count of the inner loop `for i in 0..((_epochs as i32) - 1)`
(line 102): the `usize` epoch count is truncated to its low 32 bits
(`% 4294967296`, i.e. `% 2^32`) and reinterpreted as a signed
two's-complement `i32` before the decrement, so the bit pattern of the
decremented value is `(epochs % 2^32 + (2^32 - 1)) % 2^32`; the loop runs
that many times when the pattern is a positive `i32` (below `2^31`) and
zero times when it is negative.  The decrement wraps — the release-build
semantics — on the one input class `epochs ≡ 2^31 (mod 2^32)`. -/
def trainCountB (epochs : Nat) : Nat :=
  if (epochs % 4294967296 + 4294967295) % 4294967296 < 2147483648 then
    (epochs % 4294967296 + 4294967295) % 4294967296
  else 0

/-- One neuron of a Strategy B work unit: a fresh weight vector `w0` is
trained over the first `trainCountB epochs` samples, starting at index 0. -/
def trainVecB {P W : Type} (rule : P → W → Rat → W) (lr : Rat) (data : List P)
    (epochs : Nat) (w0 : W) : Option W :=
  trainLoopB rule lr data (trainCountB epochs) 0 w0

/-- Body of a Strategy B producer work unit, from lines 97–108: for each
of `sections` neurons draw a fresh random vector (`draws k` models the
`k`-th `rng.gen()`), train it, and collect the section's vectors into the
single message that is sent. -/
def workUnitB {P W : Type} (rule : P → W → Rat → W) (data : List P) (lr : Rat)
    (epochs sections : Nat) (draws : Nat → W) : Option (List W) :=
  mapOpt (fun k => trainVecB rule lr data epochs (draws k)) (List.range sections)

/-- The aggregator loop of lines 81–87 after `n` iterations: one blocking
`recv` per iteration (`recvs i` is what the `i`-th call returns), each
handled by `strategyB_recv_step`; the second component counts the `recv`
calls performed. -/
def aggregatorRunCounted {W : Type} (recvs : Nat → Except ChannelError (List W)) :
    Nat → List W × Nat
  | 0 => ([], 0)
  | n + 1 =>
    let prev := aggregatorRunCounted recvs n
    (strategyB_recv_step prev.1 (recvs n), prev.2 + 1)

/-- One line printed to stdout by the aggregator (line 88). -/
structure OutputLine where
  elapsedMs : Nat
  workerCount : Nat
deriving DecidableEq

/-- Embedding of `MtNetwork::train_complete_iterations`: the aggregator
unit (buffer and number of `recv` calls), the printed output, and the
list of producer work-unit messages submitted in lines 91–109.  `draws u`
models the fresh `rng.gen()` stream of producer `u`, `recvs` the arrival
stream seen by the aggregator, `elapsedMs` the measured wall-clock time.
The computed weights are discarded, as in the source. -/
def train_complete_iterations {P W : Type} (rule : P → W → Rat → W)
    (net : MtNetwork P W) (epochs : Nat) (draws : Nat → Nat → W)
    (recvs : Nat → Except ChannelError (List W)) (elapsedMs : Nat) :
    (List W × Nat) × List OutputLine × List (Option (List W)) :=
  let count := net.neurons / net.section_size
  let data := net.mnist_data.getSizedPatch epochs
  (aggregatorRunCounted recvs count,
   [{ elapsedMs := elapsedMs, workerCount := net.threads - 1 }],
   (List.range count).map (fun u =>
     workUnitB rule data net.lr epochs net.section_size (draws u)))

/-- The fixed all-ones sample patch used by the concrete scenario. -/
def onesPatch : List Rat := [1, 1, 1, 1]

/-- The concrete pre-call weight vector used by the concrete scenario. -/
def initW : List Rat := [1/3, 1/3, 1/3, 1/3]

/-- Sample source stub for the concrete scenario: every section vector and
every sized patch is eight all-ones patches. -/
def mnistC2 : MnistData (List Rat) :=
  { getSectionVector := fun _ => List.replicate 8 onesPatch,
    getSizedPatch := fun _ => List.replicate 8 onesPatch }

/-- The spec's concrete scenario exactly as written:
`neurons=8, section_size=4, threads=3, lr=0.01`. -/
def netC2a : MtNetwork (List Rat) (List Rat) :=
  { section_size := 4, threads := 3, neurons := 8, lr := 1/100,
    mnist_data := mnistC2, weights := List.replicate 8 initW }

/-- The concrete scenario with the thread count matching the section count. -/
def netC2b : MtNetwork (List Rat) (List Rat) :=
  { section_size := 4, threads := 2, neurons := 8, lr := 1/100,
    mnist_data := mnistC2, weights := List.replicate 8 initW }

/-- Sentinel sample source over natural-number patches, for configurations
where the numeric content of the data is irrelevant. -/
def mnistNat : MnistData Nat :=
  { getSectionVector := fun _ => List.range 8,
    getSizedPatch := fun n => List.range n }

/-- Sentinel update rule over natural-number weights. -/
def addRule : Nat → Nat → Rat → Nat := fun p w _ => p + w

/-- A rule that counts its own applications: every application increments
the weight by one, whatever the sample and learning rate. -/
def countRule : Nat → Nat → Rat → Nat := fun _ w _ => w + 1

/-- A valid configuration (`8 % 4 = 0`) whose thread count (1) is smaller
than its section count (2): the receive loop demands two messages but only
one work unit is ever dispatched. -/
def netHang : MtNetwork Nat Nat :=
  { section_size := 4, threads := 1, neurons := 8, lr := 1/100,
    mnist_data := mnistNat, weights := List.range 8 }

/-- A single-section configuration (`section_size = neurons = 4`) with two
threads: the dispatch loop's second iteration slices `weights[4..8]` out of
a length-4 population. -/
def netSingle2 : MtNetwork Nat Nat :=
  { section_size := 4, threads := 2, neurons := 4, lr := 1/100,
    mnist_data := mnistNat, weights := List.range 4 }

/-- A single-section configuration with one thread, for the single-worker
boundary case. -/
def netSingle1 : MtNetwork Nat Nat :=
  { section_size := 3, threads := 1, neurons := 3, lr := 1,
    mnist_data := mnistNat, weights := [5, 6, 7] }

/-- A valid two-section configuration whose thread count matches its
section count, with sentinel weights. -/
def netOk : MtNetwork Nat Nat :=
  { section_size := 2, threads := 2, neurons := 4, lr := 1,
    mnist_data := mnistNat, weights := [10, 11, 12, 13] }

/-- Sample-source constructor stub for the construction theorems. -/
def dataStub : Nat → MnistData Nat := fun _ => mnistNat

/-- Random-stream stub for the construction theorems. -/
def rngStub : Nat → Nat := fun k => k

theorem mapOpt_eq_some {A B : Type} (f : A → Option B) :
    ∀ {l : List A} {r : List B}, mapOpt f l = some r →
      r.length = l.length ∧ ∀ k : Nat, r[k]? = (l[k]?).bind f := by
  intro l
  induction l with
  | nil =>
    intro r h
    simp only [mapOpt, Option.some.injEq] at h
    subst h
    exact ⟨rfl, fun k => by simp⟩
  | cons a l ih =>
    intro r h
    simp only [mapOpt, Option.bind_eq_some, Option.some.injEq] at h
    obtain ⟨b, hb, r', hr', rfl⟩ := h
    obtain ⟨hlen, hget⟩ := ih hr'
    refine ⟨by simp [hlen], fun k => ?_⟩
    cases k with
    | zero => simp [hb]
    | succ k => simpa using hget k

theorem mapOpt_total {A B : Type} (f : A → Option B) :
    ∀ l : List A, (∀ a ∈ l, ∃ b, f a = some b) → ∃ r, mapOpt f l = some r := by
  intro l
  induction l with
  | nil => exact fun _ => ⟨[], rfl⟩
  | cons a l ih =>
    intro h
    obtain ⟨b, hb⟩ := h a (by simp)
    obtain ⟨r, hr⟩ := ih (fun x hx => h x (by simp [hx]))
    exact ⟨b :: r, by simp [mapOpt, hb, hr]⟩

theorem sliceChecked_some {W : Type} (s : Nat) (weights : List W) (i : Nat)
    (h : s + i * s ≤ weights.length) :
    ∃ lw, sliceChecked s weights i = some lw ∧ lw.length = s ∧
      ∀ k, k < s → lw[k]? = weights[i * s + k]? := by
  refine ⟨(weights.drop (i * s)).take s, by simp [sliceChecked, h], ?_, ?_⟩
  · simp only [List.length_take, List.length_drop]
    omega
  · intro k hk
    rw [List.getElem?_take_of_lt hk, List.getElem?_drop]

theorem workUnitA_some {P W : Type} (rule : P → W → Rat → W) (patches : List P)
    (lr : Rat) (lw : List W) (hp : lw.length ≤ patches.length) :
    ∃ out, workUnitA rule patches lr lw = some out ∧ out.length = lw.length := by
  obtain ⟨out, hout⟩ := mapOpt_total
    (fun i => (patches[i]?).bind (fun p => (lw[i]?).map (fun w => rule p w lr)))
    (List.range lw.length) (by
      intro i hi
      rw [List.mem_range] at hi
      refine ⟨rule (patches.get ⟨i, lt_of_lt_of_le hi hp⟩) (lw.get ⟨i, hi⟩) lr, ?_⟩
      simp [List.getElem?_eq_getElem hi, List.getElem?_eq_getElem (lt_of_lt_of_le hi hp)])
  refine ⟨out, hout, ?_⟩
  have := (mapOpt_eq_some _ hout).1
  simpa using this

theorem map_getD_range {A : Type} (sent : List A) (d : A) :
    (List.range sent.length).map (fun j => sent.getD j d) = sent := by
  apply List.ext_getElem?
  intro k
  by_cases hk : k < sent.length
  · rw [List.getElem?_map, List.getElem?_range hk, Option.map_some']
    rw [List.getElem?_eq_getElem hk]
    simp [List.getD_eq_getElem?_getD, List.getElem?_eq_getElem hk]
  · rw [List.getElem?_eq_none, List.getElem?_eq_none] <;> simp_all [Nat.le_of_not_lt]

theorem flatten_length_const {A : Type} (s : Nat) :
    ∀ L : List (List A), (∀ m ∈ L, m.length = s) → L.flatten.length = L.length * s := by
  intro L
  induction L with
  | nil => simp
  | cons m L ih =>
    intro h
    simp only [List.flatten_cons, List.length_append, List.length_cons]
    rw [h m (by simp), ih (fun x hx => h x (by simp [hx]))]
    ring

theorem trainLoopB_eq {P W : Type} (rule : P → W → Rat → W) (lr : Rat) (data : List P) :
    ∀ (r idx : Nat) (w : W), idx + r ≤ data.length →
      trainLoopB rule lr data r idx w =
        some (((data.drop idx).take r).foldl (fun w p => rule p w lr) w) := by
  intro r
  induction r with
  | zero => intro idx w _; simp [trainLoopB]
  | succ r ih =>
    intro idx w h
    have hidx : idx < data.length := by omega
    rw [trainLoopB, List.getElem?_eq_getElem hidx, Option.some_bind,
      ih (idx + 1) _ (by omega)]
    congr 1
    rw [List.drop_eq_getElem_cons hidx, List.take_succ_cons, List.foldl_cons]

theorem aggregatorRunCounted_count {W : Type}
    (recvs : Nat → Except ChannelError (List W)) :
    ∀ n, (aggregatorRunCounted recvs n).2 = n := by
  intro n
  induction n with
  | zero => rfl
  | succ n ih => simp [aggregatorRunCounted, ih]

theorem aggregatorRunCounted_buffer {W : Type}
    (recvs : Nat → Except ChannelError (List W)) :
    ∀ n, (aggregatorRunCounted recvs n).1 =
      ((List.range n).filterMap (fun i => (recvs i).toOption)).flatten := by
  intro n
  induction n with
  | zero => rfl
  | succ n ih =>
    rw [List.range_succ]
    simp only [aggregatorRunCounted]
    rw [ih]
    cases h : recvs n with
    | ok ws => simp [strategyB_recv_step, h, Except.toOption]
    | error e => simp [strategyB_recv_step, h, Except.toOption]

theorem dispatchAll_some {P W : Type} (rule : P → W → Rat → W) (net : MtNetwork P W)
    (hlen : net.weights.length = net.neurons)
    (hbound : net.threads * net.section_size ≤ net.neurons)
    (hpat : ∀ i, i < net.threads →
      net.section_size ≤ (net.mnist_data.getSectionVector i).length) :
    ∃ sent, dispatchAll rule net = some sent ∧ sent.length = net.threads ∧
      ∀ m ∈ sent, m.length = net.section_size := by
  have hstep : ∀ i, i < net.threads → ∃ out, sectionOutput rule net i = some out ∧
      out.length = net.section_size := by
    intro i hi
    have hb : net.section_size + i * net.section_size ≤ net.weights.length := by
      rw [hlen]
      calc net.section_size + i * net.section_size
          = (i + 1) * net.section_size := by ring
        _ ≤ net.threads * net.section_size := Nat.mul_le_mul_right _ hi
        _ ≤ net.neurons := hbound
    obtain ⟨lw, hslice, hlw, _⟩ := sliceChecked_some _ _ _ hb
    obtain ⟨out, hout, houtlen⟩ :=
      workUnitA_some rule (net.mnist_data.getSectionVector i) net.lr lw
        (by rw [hlw]; exact hpat i hi)
    exact ⟨out, by simp [sectionOutput, hslice, hout], by rw [houtlen, hlw]⟩
  obtain ⟨sent, hsent⟩ := mapOpt_total (sectionOutput rule net) (List.range net.threads)
    (fun i hi => ⟨(hstep i (List.mem_range.mp hi)).choose,
      (hstep i (List.mem_range.mp hi)).choose_spec.1⟩)
  obtain ⟨hslen, hsget⟩ := mapOpt_eq_some _ hsent
  refine ⟨sent, hsent, by simpa using hslen, ?_⟩
  intro m hm
  rw [List.mem_iff_getElem?] at hm
  obtain ⟨k, hk⟩ := hm
  have hbk := hsget k
  rw [hk] at hbk
  by_cases hkt : k < net.threads
  · rw [List.getElem?_range hkt, Option.some_bind] at hbk
    obtain ⟨out, hout, houtlen⟩ := hstep k hkt
    rw [hout] at hbk
    cases hbk
    exact houtlen
  · rw [List.getElem?_eq_none (by simpa using Nat.le_of_not_lt hkt),
      Option.none_bind] at hbk
    cases hbk

/-- C3 counterexample: constructing with `neuron_count = 10`,
`section_size = 3` (and 4 pool threads) does fail, but the construction
trace shows the worker pool was spawned before the failure — refuting the
claim that the failure occurs before any worker thread has been spawned. -/
theorem new_spawns_pool_before_failing :
    (MtNetwork.new 3 4 10 1 dataStub rngStub).2 = none ∧
    (MtNetwork.new 3 4 10 1 dataStub rngStub).1 = [NewEvent.poolSpawned 4] :=
  ⟨rfl, rfl⟩

/-- C3 (amended): for every configuration in which `neuron_count` is not
divisible by `section_size` (and a nonzero thread count, so that pool
construction itself succeeds), `MtNetwork::new` fails deterministically —
but only after the worker pool of `threads` threads has been spawned:
the trace of the failed construction is exactly the pool-spawn event. -/
theorem new_fails_after_pool_spawn {P W : Type} (s t n : Nat) (lr : Rat)
    (mk : Nat → MnistData P) (rng : Nat → W) (ht : t ≠ 0) (hmod : n % s ≠ 0) :
    (MtNetwork.new s t n lr mk rng).2 = none ∧
    (MtNetwork.new s t n lr mk rng).1 = [NewEvent.poolSpawned t] := by
  unfold MtNetwork.new
  rw [if_neg ht, if_neg hmod]
  exact ⟨rfl, rfl⟩

/-- C3 witness: the amended theorem applied at `section_size = 3`,
`threads = 5`, `neurons = 10`. -/
theorem new_fails_after_pool_spawn_witness :
    (MtNetwork.new 3 5 10 1 dataStub rngStub).2 = none ∧
    (MtNetwork.new 3 5 10 1 dataStub rngStub).1 = [NewEvent.poolSpawned 5] :=
  new_fails_after_pool_spawn 3 5 10 1 dataStub rngStub (by decide) (by decide)

/-- C4: whenever the dispatch loop takes the slice for section `i` without
panicking, the work unit receives exactly the weight vectors at indices
`[i * section_size, (i+1) * section_size)` — the slice has length
`section_size`, its `k`-th entry is the population's `(i*section_size+k)`-th
entry, and the index ranges of distinct sections are disjoint.  The mapping
is a pure function of `(weights, section_size, i)`, hence deterministic and
independent of scheduling. -/
theorem section_partitioning_deterministic {W : Type} (s i : Nat) (weights : List W)
    (h : s + i * s ≤ weights.length) :
    ∃ lw, sliceChecked s weights i = some lw ∧ lw.length = s ∧
      (∀ k, k < s → lw[k]? = weights[i * s + k]?) ∧
      (∀ j k, j ≠ i → i * s ≤ k → k < (i + 1) * s →
        ¬(j * s ≤ k ∧ k < (j + 1) * s)) := by
  obtain ⟨lw, h1, h2, h3⟩ := sliceChecked_some s weights i h
  refine ⟨lw, h1, h2, h3, ?_⟩
  intro j k hji hk1 hk2 hc
  obtain ⟨hk3, hk4⟩ := hc
  rcases Nat.lt_or_ge j i with hj | hj
  · have hmul : (j + 1) * s ≤ i * s := Nat.mul_le_mul_right _ hj
    exact Nat.lt_irrefl k (lt_of_lt_of_le (lt_of_lt_of_le hk4 hmul) hk1)
  · have hij : i < j := lt_of_le_of_ne hj (fun hcon => hji hcon.symm)
    have hmul : (i + 1) * s ≤ j * s := Nat.mul_le_mul_right _ hij
    exact Nat.lt_irrefl k (lt_of_lt_of_le (lt_of_lt_of_le hk2 hmul) hk3)

/-- C4 witness: the partitioning theorem evaluated on the sentinel
population `[0,1,2,3,4,5]` with `section_size = 2`, section `i = 1`. -/
theorem section_partitioning_deterministic_witness :
    2 + 1 * 2 ≤ (List.range 6).length ∧
    ∃ lw, sliceChecked 2 (List.range 6) 1 = some lw ∧ lw.length = 2 ∧
      (∀ k, k < 2 → lw[k]? = (List.range 6)[1 * 2 + k]?) ∧
      (∀ j k, j ≠ 1 → 1 * 2 ≤ k → k < (1 + 1) * 2 →
        ¬(j * 2 ≤ k ∧ k < (j + 1) * 2)) :=
  ⟨by decide, section_partitioning_deterministic 2 1 (List.range 6) (by decide)⟩

/-- C5 counterexample: a send error in a Strategy B producer work unit
(line 107) is not swallowed — the `unwrap` aborts the unit, refuting the
claim that in Strategy B a channel send error is treated as benign. -/
theorem strategyB_send_error_aborts :
    strategyB_send_outcome (Except.error ChannelError.disconnected) ≠
      WorkerOutcome.completed ∧
    strategyB_send_outcome (Except.error ChannelError.disconnected) =
      WorkerOutcome.aborted :=
  ⟨by decide, rfl⟩

/-- C5 (amended): the asymmetry between the strategies is confined to the
receive site: a failed send aborts the submitting work unit in *both*
strategies (lines 55 and 107 both `unwrap`), while only the Strategy B
aggregator's receive error (lines 82–85) is swallowed silently, leaving
the buffer unchanged and raising no error. -/
theorem channel_error_handling_by_site {W : Type} (e : ChannelError) (buf : List W) :
    strategyA_send_outcome (Except.error e) = WorkerOutcome.aborted ∧
    strategyB_send_outcome (Except.error e) = WorkerOutcome.aborted ∧
    strategyB_recv_step buf (Except.error e) = buf :=
  ⟨rfl, rfl, rfl⟩

/-- C9: `train_iteration` never writes its result back: for every
post-state of a call (whatever the sample source's internal state became),
the stored weight population and every configuration field are identical
to their pre-call values, and the returned value is exactly the
functional result of the call. -/
theorem train_iteration_frame {P W : Type} (rule : P → W → Rat → W)
    (net : MtNetwork P W) (epoch : Nat) (order : List Nat) (d' : MnistData P) :
    (train_iteration_post rule net epoch order d').1.weights = net.weights ∧
    (train_iteration_post rule net epoch order d').1.section_size = net.section_size ∧
    (train_iteration_post rule net epoch order d').1.threads = net.threads ∧
    (train_iteration_post rule net epoch order d').1.neurons = net.neurons ∧
    (train_iteration_post rule net epoch order d').1.lr = net.lr ∧
    (train_iteration_post rule net epoch order d').2 =
      train_iteration rule net epoch order :=
  ⟨rfl, rfl, rfl, rfl, rfl, rfl⟩

/-- C10: the `_epoch` argument of `train_iteration` is dead: any two
argument values yield identical computations and results, for every
orchestrator state, update rule and arrival order. -/
theorem train_iteration_ignores_epoch {P W : Type} (rule : P → W → Rat → W)
    (net : MtNetwork P W) (e1 e2 : Nat) (order : List Nat) :
    train_iteration rule net e1 order = train_iteration rule net e2 order :=
  rfl

theorem train_iteration_ok {P W : Type} (rule : P → W → Rat → W)
    (net : MtNetwork P W) (epoch : Nat) (order : List Nat)
    (hthreads : net.threads = net.neurons / net.section_size)
    (hdiv : net.neurons % net.section_size = 0)
    (hlen : net.weights.length = net.neurons)
    (hpat : ∀ i, i < net.threads →
      net.section_size ≤ (net.mnist_data.getSectionVector i).length)
    (horder : List.Perm order (List.range net.threads)) :
    ∃ sent ws, dispatchAll rule net = some sent ∧
      train_iteration rule net epoch order = some ws ∧
      ws.length = net.neurons ∧ List.Perm ws sent.flatten := by
  have hns : net.neurons / net.section_size * net.section_size = net.neurons :=
    Nat.div_mul_cancel (Nat.dvd_of_mod_eq_zero hdiv)
  have hbound : net.threads * net.section_size ≤ net.neurons := by
    rw [hthreads, hns]
  obtain ⟨sent, hsent, hslen, hmem⟩ := dispatchAll_some rule net hlen hbound hpat
  have hcount : net.neurons / net.section_size = sent.length := by
    rw [hslen, hthreads]
  have hmapeq : (List.range net.threads).map (fun j => sent.getD j []) = sent := by
    rw [← hslen]
    exact map_getD_range sent []
  have harr : List.Perm (order.map (fun j => sent.getD j [])) sent := by
    have h := horder.map (fun j => sent.getD j [])
    rwa [hmapeq] at h
  refine ⟨sent, (order.map (fun j => sent.getD j [])).flatten, hsent, ?_, ?_, ?_⟩
  · unfold train_iteration
    rw [hsent, Option.some_bind, if_pos (le_of_eq hcount),
      List.take_of_length_le (le_of_eq (harr.length_eq.trans hcount.symm))]
  · rw [harr.flatten.length_eq, flatten_length_const net.section_size sent hmem,
      hslen, hthreads, hns]
  · exact harr.flatten

/-- C1 counterexample: `netHang` is a valid configuration
(`8 % 4 = 0`) on which `train_iteration` never returns a population at
all: only one work unit is dispatched (`threads = 1`) while the receive
loop demands two messages, so the call blocks forever. -/
theorem train_iteration_hangs_on_valid_config :
    netHang.neurons % netHang.section_size = 0 ∧
    train_iteration addRule netHang 1 [0] = none :=
  ⟨rfl, rfl⟩

/-- C1 (amended): for every configuration whose thread count equals
`neuron_count / section_size` (the only configurations on which the
dispatch loop neither slices out of range nor starves the receive loop),
with the construction invariants and sufficient per-section samples,
`train_iteration` returns — for every arrival order — exactly
`neuron_count` weight vectors, multiset-equal to the concatenation of the
per-section outputs of the dispatched work units. -/
theorem train_iteration_completeness {P W : Type} (rule : P → W → Rat → W)
    (net : MtNetwork P W) (epoch : Nat) (order : List Nat)
    (hthreads : net.threads = net.neurons / net.section_size)
    (hdiv : net.neurons % net.section_size = 0)
    (hlen : net.weights.length = net.neurons)
    (hpat : ∀ i, i < net.threads →
      net.section_size ≤ (net.mnist_data.getSectionVector i).length)
    (horder : List.Perm order (List.range net.threads)) :
    ∃ sent ws, dispatchAll rule net = some sent ∧
      train_iteration rule net epoch order = some ws ∧
      ws.length = net.neurons ∧ List.Perm ws sent.flatten :=
  train_iteration_ok rule net epoch order hthreads hdiv hlen hpat horder

/-- C1 witness: the completeness theorem evaluated on the two-section,
two-thread sentinel configuration with the reversed arrival order. -/
theorem train_iteration_completeness_witness :
    (netOk.threads = netOk.neurons / netOk.section_size ∧
      netOk.neurons % netOk.section_size = 0) ∧
    ∃ sent ws, dispatchAll addRule netOk = some sent ∧
      train_iteration addRule netOk 1 [1, 0] = some ws ∧
      ws.length = netOk.neurons ∧ List.Perm ws sent.flatten :=
  ⟨⟨rfl, rfl⟩, train_iteration_completeness addRule netOk 1 [1, 0] rfl rfl
    (by decide) (by decide) (by decide)⟩

/-- C2 counterexample: the spec's concrete scenario verbatim —
`neurons = 8, section_size = 4, threads = 3, lr = 0.01` — does not return
a population of length 8: the dispatch loop runs over `threads = 3` and
its third iteration slices `weights[8..12]` out of the length-8
population, a panic. -/
theorem concrete_scenario_panics_with_three_threads :
    (netC2a.neurons = 8 ∧ netC2a.section_size = 4 ∧ netC2a.threads = 3 ∧
      netC2a.lr = 1/100) ∧
    train_iteration oja_learning_rule netC2a 1 [0, 1] = none :=
  ⟨⟨rfl, rfl, rfl, rfl⟩, rfl⟩

theorem oja_changes : oja_learning_rule onesPatch initW (1/100) ≠ initW := by
  simp only [oja_learning_rule, onesPatch, initW]
  norm_num

/-- C2 (amended): the concrete scenario with the thread count matching the
two sections (`neurons = 8, section_size = 4, threads = 2, lr = 0.01`,
all-ones sample patches, pre-call population of eight `initW` vectors):
`train_iteration(1)` returns a Weight Population of length 8, every
vector has the fixed patch width `PATCH_SIZE`, and every vector differs
from the corresponding pre-call population value. -/
theorem concrete_scenario_two_sections_two_threads :
    ∃ ws, train_iteration oja_learning_rule netC2b 1 [0, 1] = some ws ∧
      ws.length = 8 ∧ (∀ v ∈ ws, v.length = PATCH_SIZE) ∧
      ∀ k, k < 8 → ws[k]? ≠ netC2b.weights[k]? := by
  refine ⟨List.replicate 8 (oja_learning_rule onesPatch initW (1/100)), rfl,
    by decide, by decide, ?_⟩
  intro k hk
  have h1 : (List.replicate 8 (oja_learning_rule onesPatch initW (1/100)))[k]? =
      some (oja_learning_rule onesPatch initW (1/100)) :=
    List.getElem?_replicate_of_lt hk
  have h2 : netC2b.weights[k]? = some initW :=
    List.getElem?_replicate_of_lt hk
  rw [h1, h2]
  intro hcon
  exact oja_changes (Option.some.inj hcon)

theorem trainCountB_eq {epochs : Nat} (h : epochs ≤ 2 ^ 31) :
    trainCountB epochs = epochs - 1 := by
  unfold trainCountB
  have h' : epochs ≤ 2147483648 := by omega
  split <;> omega

/-- C6 counterexample: the loop bound `(_epochs as i32) - 1` wraps.  At
`epoch_count = 2^31 + 2` the truncating cast makes the bound negative, so
a work unit applies the rule zero times and sends its fresh draws
untrained: with the counting rule (each application increments a vector)
the unit returns the untouched draws `[0, 0]`, although
`epoch_count - 1 = 2^31 + 1 ≠ 0` applications were claimed — and the
claimed per-vector value at this input differs from the actual one. -/
theorem workUnitB_wraps_on_huge_epochs :
    workUnitB countRule (List.range 8) 1 (2 ^ 31 + 2) 2 (fun _ => 0) = some [0, 0] ∧
    (2 ^ 31 + 2 : Nat) - 1 ≠ 0 ∧
    (some 0 : Option Nat) ≠
      some (((List.range 8).take ((2 ^ 31 + 2) - 1)).foldl
        (fun w p => countRule p w 1) 0) :=
  ⟨rfl, by decide, by decide⟩

/-- C6 (amended): for every `epoch_count` that the `i32` cast of line 102
represents faithfully (`epoch_count ≤ 2^31`), a Strategy B producer work
unit starts each of its `section_size` vectors from its own fresh random
draw (`draws k`, independent of the stored population), trains each by
exactly `epoch_count - 1` applications of the rule over the samples at
indices `0 .. epoch_count - 2` of the shared sized patch (requested with
size `epoch_count`, which the sample source guarantees to cover), and
produces exactly one message of `section_size` updated vectors. -/
theorem workUnitB_spec {P W : Type} (rule : P → W → Rat → W) (net : MtNetwork P W)
    (epochs : Nat) (draws : Nat → W) (hcast : epochs ≤ 2 ^ 31)
    (hdata : epochs - 1 ≤ (net.mnist_data.getSizedPatch epochs).length) :
    ∃ msg, workUnitB rule (net.mnist_data.getSizedPatch epochs) net.lr epochs
        net.section_size draws = some msg ∧
      msg.length = net.section_size ∧
      ∀ k, k < net.section_size →
        msg[k]? = some (((net.mnist_data.getSizedPatch epochs).take (epochs - 1)).foldl
          (fun w p => rule p w net.lr) (draws k)) := by
  have hvec : ∀ k, trainVecB rule net.lr (net.mnist_data.getSizedPatch epochs) epochs
      (draws k) = some (((net.mnist_data.getSizedPatch epochs).take (epochs - 1)).foldl
        (fun w p => rule p w net.lr) (draws k)) := by
    intro k
    unfold trainVecB
    rw [trainCountB_eq hcast,
      trainLoopB_eq rule net.lr (net.mnist_data.getSizedPatch epochs) (epochs - 1) 0
        (draws k) (by omega), List.drop_zero]
  obtain ⟨msg, hmsg⟩ := mapOpt_total
    (fun k => trainVecB rule net.lr (net.mnist_data.getSizedPatch epochs) epochs (draws k))
    (List.range net.section_size) (fun k _ => ⟨_, hvec k⟩)
  obtain ⟨hlen, hget⟩ := mapOpt_eq_some _ hmsg
  refine ⟨msg, hmsg, by simpa using hlen, ?_⟩
  intro k hk
  have h := hget k
  rw [List.getElem?_range hk, Option.some_bind, hvec k] at h
  exact h

/-- C6 witness: a Strategy B work unit of the sentinel configuration with
`epoch_count = 3`: two rule applications per vector over samples 0 and 1,
one message of two vectors. -/
theorem workUnitB_spec_witness :
    ((3 : Nat) ≤ 2 ^ 31 ∧ 3 - 1 ≤ (netOk.mnist_data.getSizedPatch 3).length) ∧
    ∃ msg, workUnitB addRule (netOk.mnist_data.getSizedPatch 3) netOk.lr 3
        netOk.section_size (fun k => k) = some msg ∧
      msg.length = netOk.section_size ∧
      ∀ k, k < netOk.section_size →
        msg[k]? = some (((netOk.mnist_data.getSizedPatch 3).take (3 - 1)).foldl
          (fun w p => addRule p w netOk.lr) k) :=
  ⟨⟨by decide, by decide⟩, workUnitB_spec addRule netOk 3 (fun k => k) (by decide) (by decide)⟩

/-- C7: in Strategy B the aggregator performs exactly
`neuron_count / section_size` receive iterations (one blocking `recv`
each, appending only the successfully received sections to its buffer, in
order), emits exactly one output line carrying the elapsed milliseconds
and the worker count `threads - 1`, and exactly
`neuron_count / section_size` producer work units are submitted. -/
theorem train_complete_iterations_spec {P W : Type} (rule : P → W → Rat → W)
    (net : MtNetwork P W) (epochs : Nat) (draws : Nat → Nat → W)
    (recvs : Nat → Except ChannelError (List W)) (elapsedMs : Nat) :
    (train_complete_iterations rule net epochs draws recvs elapsedMs).1.2 =
      net.neurons / net.section_size ∧
    (train_complete_iterations rule net epochs draws recvs elapsedMs).1.1 =
      ((List.range (net.neurons / net.section_size)).filterMap
        (fun i => (recvs i).toOption)).flatten ∧
    (train_complete_iterations rule net epochs draws recvs elapsedMs).2.1 =
      [{ elapsedMs := elapsedMs, workerCount := net.threads - 1 }] ∧
    (train_complete_iterations rule net epochs draws recvs elapsedMs).2.2.length =
      net.neurons / net.section_size :=
  ⟨aggregatorRunCounted_count recvs _, aggregatorRunCounted_buffer recvs _, rfl,
    by simp [train_complete_iterations]⟩

/-- C8 counterexample: with `section_size = neuron_count = 4` and the
perfectly valid thread count 2, `train_iteration` panics: the second
dispatch iteration slices `weights[4..8]` out of the length-4 population,
refuting the claim for "any valid thread_count". -/
theorem single_section_two_threads_panics :
    netSingle2.section_size = netSingle2.neurons ∧
    train_iteration addRule netSingle2 1 [0] = none :=
  ⟨rfl, rfl⟩

/-- C8 (amended): with `section_size = neuron_count` (a single section)
and thread count exactly 1 (the only value that matches the single
section), `train_iteration` partitions correctly — the one section slice
is the whole population, no out-of-range access — and returns a
correctly-sized result of `neuron_count` vectors from the single engaged
worker. -/
theorem single_section_one_thread_ok {P W : Type} (rule : P → W → Rat → W)
    (net : MtNetwork P W) (epoch : Nat)
    (hs : net.section_size = net.neurons) (ht : net.threads = 1)
    (hn : 0 < net.neurons) (hlen : net.weights.length = net.neurons)
    (hpat : net.neurons ≤ (net.mnist_data.getSectionVector 0).length) :
    sliceChecked net.section_size net.weights 0 = some net.weights ∧
    ∃ ws, train_iteration rule net epoch [0] = some ws ∧
      ws.length = net.neurons := by
  constructor
  · unfold sliceChecked
    rw [if_pos (by rw [hs, hlen]; omega)]
    rw [Nat.zero_mul, List.drop_zero, hs, ← hlen, List.take_length]
  · obtain ⟨sent, ws, _, hrun, hwlen, _⟩ := train_iteration_ok rule net epoch [0]
      (by rw [ht, hs, Nat.div_self hn])
      (by rw [hs, Nat.mod_self])
      hlen
      (by intro i hi
          rw [ht] at hi
          interval_cases i
          rw [hs]
          exact hpat)
      (by rw [ht]; decide)
    exact ⟨ws, hrun, hwlen⟩

/-- C8 witness: the single-section theorem evaluated on the
`section_size = neurons = 3`, one-thread sentinel configuration. -/
theorem single_section_one_thread_ok_witness :
    (netSingle1.section_size = netSingle1.neurons ∧ netSingle1.threads = 1) ∧
    sliceChecked netSingle1.section_size netSingle1.weights 0 =
      some netSingle1.weights ∧
    ∃ ws, train_iteration addRule netSingle1 1 [0] = some ws ∧
      ws.length = netSingle1.neurons :=
  ⟨⟨rfl, rfl⟩, single_section_one_thread_ok addRule netSingle1 1 rfl rfl
    (by decide) (by decide) (by decide)⟩
